import Mathlib

/-!
Verification development for the AuraGrid grid optimizer
(`src/grid_optimizer.py`).

The pipeline class `GridDataProcessor` is embedded shallowly:

* CSV cells that pandas parses into floats or datetimes are modelled as
  `Option` values over exact rationals / integer day numbers (`none` is the
  missing-value marker NaN / NaT produced by `errors=coerce` or absent data).
* Timestamps are day numbers with day 0 = 1970-01-01, a Thursday, so a day
  number is a Sunday exactly when it is congruent to 3 modulo 7.
* Float division in `transform_data` is modelled on the extended value
  domain `EVal` (finite rational, plus infinity, minus infinity, NaN); the
  exact-rational idealisation only matters for finite magnitudes, while the
  infinity/NaN behaviour of division by zero is modelled exactly.
* The sorts performed by pandas (`sort_values`, `groupby(sort=True)`) are
  embedded as a stable ascending insertion sort.  A descending
  `sort_values(ascending=False)` in pandas computes an ascending argsort and
  reverses it, which is reproduced literally by `sortDescByValue`.  (For the
  array sizes exercised in this development the numpy default sort is an
  insertion sort, hence stable, so the embedding agrees with the code.)
* Strings are compared by code points, as Python compares `str` values.
-/

namespace GridOptimizer

/-- Extended value domain for float computations: a finite exact rational,
the two infinities, or NaN (the missing-value marker). -/
inductive EVal where
  | val (q : Rat)
  | posInf
  | negInf
  | nan
deriving DecidableEq, Repr

/-- IEEE-style division for a finite numerator and finite denominator:
division by zero yields a signed infinity (NaN for 0/0), otherwise the exact
quotient. -/
def floatDiv (p e : Rat) : EVal :=
  if e = 0 then
    if p = 0 then .nan else if 0 < p then .posInf else .negInf
  else .val (p / e)

/-- Division lifted to possibly-missing operands: any NaN operand gives NaN. -/
def floatDivOpt (p e : Option Rat) : EVal :=
  match p, e with
  | some p, some e => floatDiv p e
  | _, _ => .nan

/-- The replacement performed at `grid_optimizer.py` lines 116-119:
`replace([np.inf, -np.inf], np.nan)` on the ratio column. -/
def squashInf : EVal → EVal
  | .posInf => .nan
  | .negInf => .nan
  | v => v

/-- Lexicographic comparison of char lists by code point, the order Python
uses on `str`.  (Defined on `List Char` so that it is structurally recursive
and kernel-computable.) -/
def lexLe : List Char → List Char → Bool
  | [], _ => true
  | _ :: _, [] => false
  | c :: cs, d :: ds =>
    if c.toNat < d.toNat then true
    else if d.toNat < c.toNat then false
    else lexLe cs ds

/-- Code-point comparison of strings, the order pandas uses when sorting a
string column or string group keys. -/
def strLe (a b : String) : Bool := lexLe a.data b.data

/-- Strict version of `strLe`. -/
def strLt (a b : String) : Bool := strLe a b && !(strLe b a)

/-- Stable insert: places `a` before the first element not below it. -/
def orderedInsert (le : α → α → Bool) (a : α) : List α → List α
  | [] => [a]
  | b :: l => if le a b then a :: b :: l else b :: orderedInsert le a l

/-- Stable ascending sort (insertion sort).  Models the ascending argsort of
pandas `sort_values` / `groupby(sort=True)`. -/
def sort_values (le : α → α → Bool) : List α → List α
  | [] => []
  | a :: l => orderedInsert le a (sort_values le l)

/-- The distinct group keys produced by `groupby(column, sort=True)`:
distinct values of the key column, in ascending order. -/
def groupKeys (key : α → String) (l : List α) : List String :=
  sort_values strLe ((l.map key).dedup)

/-- Row view used by `aggregate_weekly_output`: the `Time` index (a day
number), `Source_ID` and `Power_Output` columns of a frame whose timestamps
have been coerced. -/
structure ARow where
  time : Int
  source_id : String
  power_output : Rat
deriving DecidableEq, Repr

/-- The label `resample('W')` assigns to a timestamp: the calendar week
bucket is right-closed and labelled by its Sunday, so the label of day `t`
is the first Sunday on or after `t`.  Sundays are the days congruent to
3 modulo 7 (day 0 = 1970-01-01 is a Thursday). -/
def weekBucket (t : Int) : Int := 7 * ((t + 3) / 7) + 3

/-- Minimum of a list of day numbers (0 for the empty list, which the
aggregation never queries: groupby only forms nonempty groups). -/
def minList : List Int → Int
  | [] => 0
  | t :: ts => ts.foldl min t

/-- Maximum of a list of day numbers. -/
def maxList : List Int → Int
  | [] => 0
  | t :: ts => ts.foldl max t

/-- The consecutive week labels emitted by `resample('W')`, from the first
label to the last label in steps of 7 days.  `resample` emits every week in
this span, zero-filling weeks with no readings. -/
def weekRange (lo hi : Int) : List Int :=
  (List.range (((hi - lo) / 7).toNat + 1)).map (fun (i : Nat) => lo + 7 * (i : Int))

/-- Sum of the `Power_Output` column over a list of rows. -/
def sumPower (rows : List ARow) : Rat := (rows.map ARow.power_output).sum

/-- `resample('W')['Power_Output'].sum()` on one `Source_ID` group: one
entry per week label between the first and last reading of the group, each
holding the sum of the power of the readings in that week. -/
def resampleWeekly (rows : List ARow) : List (Int × Rat) :=
  let lo := weekBucket (minList (rows.map ARow.time))
  let hi := weekBucket (maxList (rows.map ARow.time))
  (weekRange lo hi).map
    (fun w => (w, sumPower (rows.filter (fun r => decide (weekBucket r.time = w)))))

/-- A row of `self.weekly_data` after `reset_index()`: source, week label,
weekly power sum. -/
structure WEntry where
  source_id : String
  week : Int
  power_output : Rat
deriving DecidableEq, Repr

/-- Comparison used by `sort_values('Time')`. -/
def timeLe (a b : ARow) : Bool := decide (a.time ≤ b.time)

/-- Lines 139-146: sort by `Time`, group by `Source_ID` (sorted keys),
resample each group to weeks and sum `Power_Output`. -/
def weeklyDataOf (rows : List ARow) : List WEntry :=
  let sorted := sort_values timeLe rows
  (groupKeys ARow.source_id sorted).flatMap (fun s =>
    (resampleWeekly (sorted.filter (fun r => decide (r.source_id = s)))).map
      (fun bw => ⟨s, bw.1, bw.2⟩))

/-- Line 149: `weekly_data.groupby('Source_ID')['Power_Output'].sum()` —
one total per distinct source, keyed in ascending source order. -/
def totalBySource (w : List WEntry) : List (String × Rat) :=
  (groupKeys WEntry.source_id w).map
    (fun s => (s, ((w.filter (fun e => decide (e.source_id = s))).map WEntry.power_output).sum))

/-- Comparison by total value used by `sort_values(ascending=False)`. -/
def valueLe (a b : String × Rat) : Bool := decide (a.2 ≤ b.2)

/-- Line 150: `sort_values(ascending=False)`.  Pandas performs an ascending
argsort and reverses the whole index order, so ties end up in reverse of
their pre-sort order. -/
def sortDescByValue (l : List (String × Rat)) : List (String × Rat) :=
  (sort_values valueLe l).reverse

/-- Line 151: `total_by_source.head(5).index.tolist()`. -/
def top5Of (w : List WEntry) : List String :=
  ((sortDescByValue (totalBySource w)).take 5).map Prod.fst

/-- A data row as parsed by `pd.read_csv`: the `Time` cell is recorded as
the day number it will coerce to under `pd.to_datetime(errors=coerce)`
(`none` when unparseable), numeric cells are `none` when missing (NaN). -/
structure RawRow where
  time : Option Int
  source_id : String
  power_output : Option Rat
  efficiency_factor : Option Rat
deriving DecidableEq, Repr

/-- A row after `clean_data`: timestamp coerced and present, power present. -/
structure CRow where
  time : Int
  source_id : String
  power_output : Rat
  efficiency_factor : Option Rat
deriving DecidableEq, Repr

/-- A cleaned row after `transform_data` added the `Efficiency_Ratio`
column. -/
structure TRow where
  time : Int
  source_id : String
  power_output : Rat
  efficiency_factor : Option Rat
  efficiency_ratio : EVal
deriving DecidableEq, Repr

/-- A raw (not yet cleaned) row after `transform_data` added the ratio
column — reachable because the code only guards on `dataframe is None`,
not on `clean_data` having run. -/
structure TRawRow where
  time : Option Int
  source_id : String
  power_output : Option Rat
  efficiency_factor : Option Rat
  efficiency_ratio : EVal
deriving DecidableEq, Repr

/-- Extraction of the cleaned row of a raw row, when both the timestamp and
the power parse; `none` when the row is dropped by `clean_data`. -/
def toCRow (r : RawRow) : Option CRow :=
  match r.time, r.power_output with
  | some t, some p => some ⟨t, r.source_id, p, r.efficiency_factor⟩
  | _, _ => none

/-- Lines 111-119 applied to a cleaned row: compute
`Power_Output / Efficiency_Factor`, then replace infinities by NaN. -/
def addRatioC (r : CRow) : TRow :=
  ⟨r.time, r.source_id, r.power_output, r.efficiency_factor,
    squashInf (floatDivOpt (some r.power_output) r.efficiency_factor)⟩

/-- Lines 111-119 applied to an uncleaned row (missing operands give NaN). -/
def addRatioRaw (r : RawRow) : TRawRow :=
  ⟨r.time, r.source_id, r.power_output, r.efficiency_factor,
    squashInf (floatDivOpt r.power_output r.efficiency_factor)⟩

/-- Projection of a cleaned row to the columns used by the aggregation. -/
def CRow.toARow (r : CRow) : ARow := ⟨r.time, r.source_id, r.power_output⟩

/-- Projection of a transformed row to the columns used by the
aggregation. -/
def TRow.toARow (r : TRow) : ARow := ⟨r.time, r.source_id, r.power_output⟩

/-- The value of `self.dataframe` between pipeline steps.  The Python frame
is dynamically typed; the embedding tags the frame with the shape it has in
each reachable pipeline state. -/
inductive Frame where
  | raw (rows : List RawRow)
  | cleaned (rows : List CRow)
  | transformedRaw (rows : List TRawRow)
  | transformed (rows : List TRow)
deriving DecidableEq, Repr

/-- The mutable state of a `GridDataProcessor`. -/
structure Processor where
  dataframe : Option Frame
  weekly_data : Option (List WEntry)
  top5_sources : List String
deriving DecidableEq, Repr

/-- `__init__`: no data loaded yet. -/
def initProcessor : Processor := ⟨none, none, []⟩

/-- The Python exceptions that can cross a method boundary in this
program. -/
inductive PyError where
  | fileNotFoundError (msg : String)
  | ioError (msg : String)
  | valueError (msg : String)
  | typeError (msg : String)
  | keyError (msg : String)
  | zeroDivisionError
deriving DecidableEq, Repr

/-- The possible shapes of the input file seen by `pd.read_csv`:
absent, completely empty (no header at all), unparseable, or a parsed
table with a header and zero or more data rows. -/
inductive CSVInput where
  | missingFile
  | emptyFile
  | malformed
  | table (cols : List String) (rows : List RawRow)
deriving DecidableEq, Repr

/-- The hard-coded input path of `main`. -/
def inputFile : String := "sensor_data.csv"

/-- The four required columns checked at line 38. -/
def requiredColumns : List String :=
  ["Time", "Source_ID", "Power_Output", "Efficiency_Factor"]

/-- The message of the error produced when required columns are missing:
the `ValueError` of line 42 is caught by the generic handler at line 65 and
re-raised as an `IOError` carrying the original message. -/
def schemaErrorMsg (cols : List String) : String :=
  "Failed to read " ++ inputFile ++ ": Missing required columns: " ++
    toString (requiredColumns.filter (fun c => !(cols.contains c)))

/-- `read_data` (lines 31-67).  A missing file raises `FileNotFoundError`;
a completely empty file raises `EmptyDataError`, re-raised as `IOError`;
a malformed file raises `ParserError`, re-raised as `IOError`; a parsed
table with a required column absent raises `ValueError` at line 42, which
the `except Exception` handler at line 65 re-raises as `IOError`. -/
def read_data (inp : CSVInput) (p : Processor) : Except PyError Processor :=
  match inp with
  | .missingFile =>
    .error (.fileNotFoundError ("Sensor data file not found: " ++ inputFile))
  | .emptyFile =>
    .error (.ioError ("The file " ++ inputFile ++ " contains no data"))
  | .malformed =>
    .error (.ioError ("Corrupted or invalid CSV format in " ++ inputFile))
  | .table cols rows =>
    let missing := requiredColumns.filter (fun c => !(cols.contains c))
    if missing.isEmpty then .ok { p with dataframe := some (.raw rows) }
    else .error (.ioError (schemaErrorMsg cols))

/-- `clean_data` (lines 69-100): guard on `dataframe is None` (line 73);
coerce `Time` and drop unparseable rows (lines 79-84); drop rows with null
`Power_Output` (line 88); then `retention_rate = len/original * 100`
(line 92) divides by zero when the frame had no rows.  On an
already-transformed frame the same operations apply to the ratio-carrying
rows. -/
def clean_data (p : Processor) : Except PyError Processor :=
  match p.dataframe with
  | none => .error (.valueError "No data loaded. Call read_data() first.")
  | some (.raw rows) =>
    let original_count := rows.length
    let afterTime := rows.filter (fun r => r.time.isSome)
    let afterPower := afterTime.filter (fun r => r.power_output.isSome)
    if original_count = 0 then .error .zeroDivisionError
    else .ok { p with dataframe := some (.cleaned (afterPower.filterMap toCRow)) }
  | some (.cleaned rows) =>
    if rows.length = 0 then .error .zeroDivisionError else .ok p
  | some (.transformedRaw rows) =>
    let original_count := rows.length
    let kept := (rows.filter (fun r => r.time.isSome)).filter
      (fun r => r.power_output.isSome)
    if original_count = 0 then .error .zeroDivisionError
    else .ok { p with dataframe := some (.transformedRaw kept) }
  | some (.transformed rows) =>
    if rows.length = 0 then .error .zeroDivisionError else .ok p

/-- `transform_data` (lines 102-130): guard on `dataframe is None`
(line 106), then derive the ratio column and replace infinities by NaN.
The operations are column-wise and succeed on any loaded frame, cleaned or
not. -/
def transform_data (p : Processor) : Except PyError Processor :=
  match p.dataframe with
  | none => .error (.valueError "No data loaded. Call read_data() and clean_data() first.")
  | some (.raw rows) =>
    .ok { p with dataframe := some (.transformedRaw (rows.map addRatioRaw)) }
  | some (.cleaned rows) =>
    .ok { p with dataframe := some (.transformed (rows.map addRatioC)) }
  | some (.transformedRaw rows) =>
    .ok { p with dataframe := some (.transformedRaw
      (rows.map (fun r => addRatioRaw ⟨r.time, r.source_id, r.power_output, r.efficiency_factor⟩))) }
  | some (.transformed rows) =>
    .ok { p with dataframe := some (.transformed
      (rows.map (fun r => addRatioC ⟨r.time, r.source_id, r.power_output, r.efficiency_factor⟩))) }

/-- `aggregate_weekly_output` (lines 132-166): guard on `dataframe is None`
(line 136); `resample('W')` needs a datetime index, so on a frame whose
`Time` column was never coerced (clean never ran) pandas raises a
`TypeError`; on a cleaned or transformed frame it produces the weekly table
and the top-5 list. -/
def aggregate_weekly_output (p : Processor) : Except PyError Processor :=
  match p.dataframe with
  | none => .error (.valueError "No data loaded. Complete previous steps first.")
  | some (.raw _) =>
    .error (.typeError "Only valid with DatetimeIndex")
  | some (.transformedRaw _) =>
    .error (.typeError "Only valid with DatetimeIndex")
  | some (.cleaned rows) =>
    let w := weeklyDataOf (rows.map CRow.toARow)
    .ok { p with weekly_data := some w, top5_sources := top5Of w }
  | some (.transformed rows) =>
    let w := weeklyDataOf (rows.map TRow.toARow)
    .ok { p with weekly_data := some w, top5_sources := top5Of w }

/-- The summary dictionary built by `get_summary_statistics` on a
transformed frame.  Date fields are `none` (NaT) on an empty frame; the
averages are NaN on an empty frame. -/
structure Stats where
  total_records : Nat
  unique_sources : Nat
  date_range_start : Option Int
  date_range_end : Option Int
  total_power_output : Rat
  avg_power_output : EVal
  avg_efficiency_factor : EVal
  avg_efficiency_ratio : EVal
deriving DecidableEq, Repr

/-- Mean of a list of rationals; NaN on the empty list, as pandas `mean`. -/
def meanRat (l : List Rat) : EVal :=
  if l.length = 0 then .nan else .val (l.sum / (l.length : Rat))

/-- Mean that skips missing values, as pandas `mean` with `skipna`. -/
def meanOpt (l : List (Option Rat)) : EVal := meanRat (l.filterMap id)

/-- Mean over the finite entries of a list of extended values (NaN entries
are skipped by pandas `mean`; after `squashInf` no infinities remain). -/
def meanEVal (l : List EVal) : EVal :=
  meanRat (l.filterMap (fun v => match v with | .val q => some q | _ => none))

/-- `get_summary_statistics` (lines 168-184): returns the empty dictionary
when no data is loaded (line 171) — it is the only method without the
`ValueError` guard.  On a loaded frame it reads the `Efficiency_Ratio`
column, which raises a `KeyError` unless `transform_data` has run. -/
def get_summary_statistics (p : Processor) : Except PyError (Option Stats) :=
  match p.dataframe with
  | none => .ok none
  | some (.transformed rows) =>
    .ok (some
      { total_records := rows.length
        unique_sources := (rows.map TRow.source_id).dedup.length
        date_range_start :=
          if rows.length = 0 then none else some (minList (rows.map TRow.time))
        date_range_end :=
          if rows.length = 0 then none else some (maxList (rows.map TRow.time))
        total_power_output := (rows.map TRow.power_output).sum
        avg_power_output := meanRat (rows.map TRow.power_output)
        avg_efficiency_factor := meanOpt (rows.map TRow.efficiency_factor)
        avg_efficiency_ratio := meanEVal (rows.map TRow.efficiency_ratio) })
  | some (.transformedRaw rows) =>
    .ok (some
      { total_records := rows.length
        unique_sources := (rows.map TRawRow.source_id).dedup.length
        date_range_start :=
          if (rows.filterMap TRawRow.time).length = 0 then none
          else some (minList (rows.filterMap TRawRow.time))
        date_range_end :=
          if (rows.filterMap TRawRow.time).length = 0 then none
          else some (maxList (rows.filterMap TRawRow.time))
        total_power_output := (rows.filterMap TRawRow.power_output).sum
        avg_power_output := meanOpt (rows.map TRawRow.power_output)
        avg_efficiency_factor := meanOpt (rows.map TRawRow.efficiency_factor)
        avg_efficiency_ratio := meanEVal (rows.map TRawRow.efficiency_ratio) })
  | some _ => .error (.keyError "Efficiency_Ratio")

/-- The data-processing phase of `main` (lines 351-356): the four pipeline
steps in order, then the summary dictionary. -/
def runProcessing (inp : CSVInput) : Except PyError Processor :=
  (read_data inp initProcessor).bind (fun p1 =>
    (clean_data p1).bind (fun p2 =>
      (transform_data p2).bind (fun p3 =>
        aggregate_weekly_output p3)))

/-- The body of the `try` block of `main`: data processing, then the
summary dictionary and the summary print block (line 373 calls `strftime`
on the date range, which raises on NaT when the cleaned frame is empty;
line 371 would raise `KeyError` on an empty dictionary). -/
def runMain (inp : CSVInput) : Except PyError Processor :=
  (runProcessing inp).bind (fun p =>
    (get_summary_statistics p).bind (fun st =>
      match st with
      | none => .error (.keyError "total_records")
      | some s =>
        match s.date_range_start, s.date_range_end with
        | some _, some _ => .ok p
        | _, _ => .error (.valueError "NaTType does not support strftime")))

/-- The pipeline steps that ran to completion, in order.  Used to state
that a failure in `read_data` happens before any row processing. -/
def stepsCompleted (inp : CSVInput) : List String :=
  match read_data inp initProcessor with
  | .error _ => []
  | .ok p1 =>
    match clean_data p1 with
    | .error _ => ["read_data"]
    | .ok p2 =>
      match transform_data p2 with
      | .error _ => ["read_data", "clean_data"]
      | .ok p3 =>
        match aggregate_weekly_output p3 with
        | .error _ => ["read_data", "clean_data", "transform_data"]
        | .ok _ => ["read_data", "clean_data", "transform_data", "aggregate_weekly_output"]

/-- The three top-level exception handlers of `main` (lines 387-402), in
source order.  In Python `FileNotFoundError` is a subclass of `IOError`,
and every exception is an `Exception`, so a later handler may also match an
error already caught by an earlier one; dispatch takes the first match. -/
inductive Handler where
  | fileNotFound
  | io
  | generic
deriving DecidableEq, Repr

/-- Which errors each `except` clause matches (Python subclassing:
`FileNotFoundError <: IOError <: Exception`). -/
def catches : Handler → PyError → Bool
  | .fileNotFound, .fileNotFoundError _ => true
  | .fileNotFound, _ => false
  | .io, .fileNotFoundError _ => true
  | .io, .ioError _ => true
  | .io, _ => false
  | .generic, _ => true

/-- The handler chain in source order. -/
def handlerChain : List Handler := [.fileNotFound, .io, .generic]

/-- The handler that actually catches an error: the first matching clause. -/
def dispatch (e : PyError) : Option Handler :=
  handlerChain.find? (fun h => catches h e)

/-- `main` (lines 339-402): exit code 0 when the `try` body completes,
1 from every handler. -/
def main (inp : CSVInput) : Int :=
  match runMain inp with
  | .ok _ => 0
  | .error (.fileNotFoundError _) => 1
  | .error (.ioError _) => 1
  | .error _ => 1

/-- Modelled from the spec (claim C2 wording): the top-5 ranking the spec
describes — distinct sources in original encounter order, stably sorted by
descending total power output, first five kept.  This is the claim side of
the refinement check, not a translation of the code. -/
def top5SpecStable (rows : List ARow) : List String :=
  let keys := rows.foldl
    (fun acc r => if r.source_id ∈ acc then acc else acc ++ [r.source_id]) []
  let totals := keys.map
    (fun s => (s, sumPower (rows.filter (fun r => decide (r.source_id = s)))))
  ((sort_values (fun a b => decide (b.2 ≤ a.2)) totals).take 5).map Prod.fst

/-! Helper lemmas: the code-point order on strings is a linear order. -/

theorem char_toNat_inj {c d : Char} (h : c.toNat = d.toNat) : c = d :=
  Char.ext (UInt32.eq_of_val_eq (Fin.ext h))

theorem lexLe_total : ∀ xs ys : List Char, lexLe xs ys = true ∨ lexLe ys xs = true := by
  intro xs
  induction xs with
  | nil => intro ys; left; rfl
  | cons c cs ih =>
    intro ys
    cases ys with
    | nil => right; rfl
    | cons d ds =>
      rcases Nat.lt_trichotomy c.toNat d.toNat with h | h | h
      · left; simp [lexLe, h]
      · rcases ih ds with h2 | h2
        · left; simp [lexLe, h, h2]
        · right; simp [lexLe, h, h2]
      · right; simp [lexLe, h]

theorem lexLe_cons_iff {c d : Char} {cs ds : List Char} :
    lexLe (c :: cs) (d :: ds) = true ↔
      (c.toNat < d.toNat ∨ (c.toNat = d.toNat ∧ lexLe cs ds = true)) := by
  by_cases h : c.toNat < d.toNat
  · simp [lexLe, h]
  · by_cases h2 : d.toNat < c.toNat
    · simp [lexLe, h, h2]
      omega
    · have h3 : c.toNat = d.toNat := by omega
      simp [lexLe, h, h2, h3]

theorem lexLe_antisymm : ∀ xs ys : List Char,
    lexLe xs ys = true → lexLe ys xs = true → xs = ys := by
  intro xs
  induction xs with
  | nil =>
    intro ys h1 h2
    cases ys with
    | nil => rfl
    | cons d ds => simp [lexLe] at h2
  | cons c cs ih =>
    intro ys h1 h2
    cases ys with
    | nil => simp [lexLe] at h1
    | cons d ds =>
      rcases lexLe_cons_iff.mp h1 with h | ⟨heq, htl⟩
      · rcases lexLe_cons_iff.mp h2 with h2a | ⟨h2a, _⟩ <;> omega
      · rcases lexLe_cons_iff.mp h2 with h2a | ⟨_, h2tl⟩
        · omega
        · rw [char_toNat_inj heq, ih ds htl h2tl]

theorem lexLe_trans : ∀ xs ys zs : List Char,
    lexLe xs ys = true → lexLe ys zs = true → lexLe xs zs = true := by
  intro xs
  induction xs with
  | nil => intro ys zs h1 h2; rfl
  | cons c cs ih =>
    intro ys zs h1 h2
    cases ys with
    | nil => simp [lexLe] at h1
    | cons d ds =>
      cases zs with
      | nil => simp [lexLe] at h2
      | cons e es =>
        rcases lexLe_cons_iff.mp h1 with h | ⟨heq, htl⟩ <;>
          rcases lexLe_cons_iff.mp h2 with h2a | ⟨h2eq, h2tl⟩
        · exact lexLe_cons_iff.mpr (Or.inl (by omega))
        · exact lexLe_cons_iff.mpr (Or.inl (by omega))
        · exact lexLe_cons_iff.mpr (Or.inl (by omega))
        · exact lexLe_cons_iff.mpr (Or.inr ⟨by omega, ih ds es htl h2tl⟩)

theorem strLe_total (a b : String) : strLe a b = true ∨ strLe b a = true :=
  lexLe_total a.data b.data

theorem strLe_trans {a b c : String} (h1 : strLe a b = true) (h2 : strLe b c = true) :
    strLe a c = true :=
  lexLe_trans a.data b.data c.data h1 h2

theorem strLe_antisymm {a b : String} (h1 : strLe a b = true) (h2 : strLe b a = true) :
    a = b :=
  String.ext (lexLe_antisymm a.data b.data h1 h2)

theorem strLe_refl (a : String) : strLe a a = true := by
  rcases strLe_total a a with h | h <;> exact h

theorem strLt_of_strLe_of_ne {a b : String} (h1 : strLe a b = true) (h2 : a ≠ b) :
    strLt a b = true := by
  have hba : strLe b a = false := by
    cases hb : strLe b a with
    | false => rfl
    | true => exact absurd (strLe_antisymm h1 hb) h2
  simp [strLt, h1, hba]

/-! Helper lemmas: the stable insertion sort. -/

theorem mem_orderedInsert {le : α → α → Bool} {a x : α} :
    ∀ {l : List α}, x ∈ orderedInsert le a l ↔ x = a ∨ x ∈ l := by
  intro l
  induction l with
  | nil => simp [orderedInsert]
  | cons b bs ih =>
    by_cases h : le a b = true
    · simp [orderedInsert, h]
    · simp only [orderedInsert, if_neg h, List.mem_cons, ih]
      tauto

theorem orderedInsert_perm (le : α → α → Bool) (a : α) :
    ∀ l : List α, (orderedInsert le a l).Perm (a :: l) := by
  intro l
  induction l with
  | nil => simp [orderedInsert]
  | cons b bs ih =>
    by_cases h : le a b = true
    · simp [orderedInsert, h]
    · simp only [orderedInsert, if_neg h]
      exact (ih.cons b).trans (List.Perm.swap a b bs)

theorem sort_values_perm (le : α → α → Bool) :
    ∀ l : List α, (sort_values le l).Perm l := by
  intro l
  induction l with
  | nil => rfl
  | cons a as ih =>
    exact (orderedInsert_perm le a (sort_values le as)).trans (ih.cons a)

theorem mem_sort_values {le : α → α → Bool} {x : α} {l : List α} :
    x ∈ sort_values le l ↔ x ∈ l :=
  (sort_values_perm le l).mem_iff

theorem length_sort_values (le : α → α → Bool) (l : List α) :
    (sort_values le l).length = l.length :=
  (sort_values_perm le l).length_eq

theorem sorted_orderedInsert {le : α → α → Bool}
    (htrans : ∀ a b c, le a b = true → le b c = true → le a c = true)
    (htotal : ∀ a b, le a b = true ∨ le b a = true) (a : α) :
    ∀ {l : List α}, l.Pairwise (fun x y => le x y = true) →
      (orderedInsert le a l).Pairwise (fun x y => le x y = true) := by
  intro l
  induction l with
  | nil => intro _; simp [orderedInsert]
  | cons b bs ih =>
    intro hp
    by_cases h : le a b = true
    · rw [orderedInsert, if_pos h]
      refine List.Pairwise.cons ?_ hp
      intro y hy
      rcases List.mem_cons.mp hy with rfl | hy
      · exact h
      · exact htrans a b y h (List.rel_of_pairwise_cons hp hy)
    · rw [orderedInsert, if_neg h]
      have hba : le b a = true := (htotal a b).resolve_left h
      refine List.Pairwise.cons ?_ (ih hp.tail)
      intro y hy
      rcases mem_orderedInsert.mp hy with rfl | hy
      · exact hba
      · exact List.rel_of_pairwise_cons hp hy

theorem sorted_sort_values {le : α → α → Bool}
    (htrans : ∀ a b c, le a b = true → le b c = true → le a c = true)
    (htotal : ∀ a b, le a b = true ∨ le b a = true) :
    ∀ l : List α, (sort_values le l).Pairwise (fun x y => le x y = true) := by
  intro l
  induction l with
  | nil => exact List.Pairwise.nil
  | cons a as ih => exact sorted_orderedInsert htrans htotal a ih

/-! Helper lemmas: fold-based minimum and maximum over day numbers. -/

theorem foldl_min_le_init : ∀ (ts : List Int) (a : Int), ts.foldl min a ≤ a := by
  intro ts
  induction ts with
  | nil => intro a; exact le_refl a
  | cons t ts ih =>
    intro a
    rw [List.foldl_cons]
    exact le_trans (ih (min a t)) (min_le_left a t)

theorem foldl_min_le_mem : ∀ (ts : List Int) (a x : Int), x ∈ ts → ts.foldl min a ≤ x := by
  intro ts
  induction ts with
  | nil => intro a x hx; cases hx
  | cons t ts ih =>
    intro a x hx
    rw [List.foldl_cons]
    rcases List.mem_cons.mp hx with rfl | hx
    · exact le_trans (foldl_min_le_init ts (min a x)) (min_le_right a x)
    · exact ih (min a t) x hx

theorem minList_le {l : List Int} {x : Int} (hx : x ∈ l) : minList l ≤ x := by
  cases l with
  | nil => cases hx
  | cons t ts =>
    rcases List.mem_cons.mp hx with h | h
    · exact h ▸ foldl_min_le_init ts t
    · exact foldl_min_le_mem ts t x h

theorem foldl_max_init_le : ∀ (ts : List Int) (a : Int), a ≤ ts.foldl max a := by
  intro ts
  induction ts with
  | nil => intro a; exact le_refl a
  | cons t ts ih =>
    intro a
    rw [List.foldl_cons]
    exact le_trans (le_max_left a t) (ih (max a t))

theorem foldl_max_mem_le : ∀ (ts : List Int) (a x : Int), x ∈ ts → x ≤ ts.foldl max a := by
  intro ts
  induction ts with
  | nil => intro a x hx; cases hx
  | cons t ts ih =>
    intro a x hx
    rw [List.foldl_cons]
    rcases List.mem_cons.mp hx with rfl | hx
    · exact le_trans (le_max_right a x) (foldl_max_init_le ts (max a x))
    · exact ih (max a t) x hx

theorem le_maxList {l : List Int} {x : Int} (hx : x ∈ l) : x ≤ maxList l := by
  cases l with
  | nil => cases hx
  | cons t ts =>
    rcases List.mem_cons.mp hx with h | h
    · exact h ▸ foldl_max_init_le ts t
    · exact foldl_max_mem_le ts t x h

/-! Helper lemmas: the infinity replacement of `transform_data`. -/

theorem squashInf_ne_posInf (v : EVal) : squashInf v ≠ EVal.posInf := by
  cases v <;> simp [squashInf]

theorem squashInf_ne_negInf (v : EVal) : squashInf v ≠ EVal.negInf := by
  cases v <;> simp [squashInf]

theorem squash_floatDiv_zero (pw : Rat) : squashInf (floatDiv pw 0) = EVal.nan := by
  unfold floatDiv
  by_cases h : pw = 0
  · simp [h, squashInf]
  · by_cases h2 : 0 < pw <;> simp [h, h2, squashInf]

/-- Shared fact: all three row-processing steps raise the no-data-loaded
`ValueError` guard when `dataframe` is `None`. -/
theorem guard_errors (p : Processor) (h : p.dataframe = none) :
    clean_data p = .error (.valueError "No data loaded. Call read_data() first.") ∧
    transform_data p
      = .error (.valueError "No data loaded. Call read_data() and clean_data() first.") ∧
    aggregate_weekly_output p
      = .error (.valueError "No data loaded. Complete previous steps first.") := by
  refine ⟨?_, ?_, ?_⟩ <;>
    simp [clean_data, transform_data, aggregate_weekly_output, h]

/-- Claim C3: for every cleaned table, after `transform_data` no row has an
infinite `Efficiency_Ratio`, and every row with `Efficiency_Factor = 0` has
its ratio marked missing (NaN) rather than infinite. -/
theorem transform_no_infinite_ratio (p : Processor) (rows : List CRow)
    (h : p.dataframe = some (.cleaned rows)) :
    transform_data p
      = .ok { p with dataframe := some (.transformed (rows.map addRatioC)) } ∧
    ∀ r ∈ rows.map addRatioC,
      r.efficiency_ratio ≠ EVal.posInf ∧ r.efficiency_ratio ≠ EVal.negInf ∧
      (r.efficiency_factor = some 0 → r.efficiency_ratio = EVal.nan) := by
  constructor
  · simp [transform_data, h]
  · intro r hr
    rcases List.mem_map.mp hr with ⟨c, _, rfl⟩
    refine ⟨squashInf_ne_posInf _, squashInf_ne_negInf _, ?_⟩
    intro hz
    simp only [addRatioC] at hz ⊢
    rw [hz]
    simp [floatDivOpt, squash_floatDiv_zero]

/-- A one-row cleaned frame with `Efficiency_Factor = 0`. -/
def cleanedDemo : Processor := ⟨some (.cleaned [⟨0, "A", 1, some 0⟩]), none, []⟩

/-- Witness for C3 at a concrete one-row cleaned frame whose efficiency
factor is zero. -/
theorem transform_no_infinite_ratio_witness :
    transform_data cleanedDemo
      = .ok { cleanedDemo with
          dataframe := some (.transformed ([(⟨0, "A", 1, some 0⟩ : CRow)].map addRatioC)) } ∧
    ∀ r ∈ [(⟨0, "A", 1, some 0⟩ : CRow)].map addRatioC,
      r.efficiency_ratio ≠ EVal.posInf ∧ r.efficiency_ratio ≠ EVal.negInf ∧
      (r.efficiency_factor = some 0 → r.efficiency_ratio = EVal.nan) :=
  transform_no_infinite_ratio cleanedDemo [⟨0, "A", 1, some 0⟩] rfl

/-- Claim C8 (amended): every row-processing step fails with the
no-data-loaded `ValueError` guard whenever no data has been loaded.  The
guard checks only `dataframe is None`; it does not verify that the
immediate predecessor step ran (see the counterexample). -/
theorem steps_guarded_when_no_data (p : Processor) (h : p.dataframe = none) :
    clean_data p = .error (.valueError "No data loaded. Call read_data() first.") ∧
    transform_data p
      = .error (.valueError "No data loaded. Call read_data() and clean_data() first.") ∧
    aggregate_weekly_output p
      = .error (.valueError "No data loaded. Complete previous steps first.") :=
  guard_errors p h

/-- Witness for C8 at the freshly initialised processor. -/
theorem steps_guarded_when_no_data_witness :
    clean_data initProcessor
      = .error (.valueError "No data loaded. Call read_data() first.") ∧
    transform_data initProcessor
      = .error (.valueError "No data loaded. Call read_data() and clean_data() first.") ∧
    aggregate_weekly_output initProcessor
      = .error (.valueError "No data loaded. Complete previous steps first.") :=
  steps_guarded_when_no_data initProcessor rfl

/-- Counterexample to C8 as stated: after `read_data` alone — its successor
`clean_data` has not completed — `transform_data` succeeds instead of
failing with the no-data-loaded guard, because the guard only checks that
some frame is loaded. -/
theorem transform_succeeds_without_clean :
    (read_data (.table requiredColumns [⟨some 0, "A", some 1, none⟩]) initProcessor).bind
        transform_data
      = .ok ⟨some (.transformedRaw [⟨some 0, "A", some 1, none, .nan⟩]), none, []⟩ := by
  rfl

/-- Claim C10: `get_summary_statistics` before any data is loaded returns
the empty dictionary, unlike the other steps, which raise the
no-data-loaded `ValueError` in that state. -/
theorem summary_empty_before_load (p : Processor) (h : p.dataframe = none) :
    get_summary_statistics p = .ok none ∧
    clean_data p = .error (.valueError "No data loaded. Call read_data() first.") ∧
    transform_data p
      = .error (.valueError "No data loaded. Call read_data() and clean_data() first.") ∧
    aggregate_weekly_output p
      = .error (.valueError "No data loaded. Complete previous steps first.") :=
  ⟨by simp [get_summary_statistics, h], guard_errors p h⟩

/-- Witness for C10 at the freshly initialised processor. -/
theorem summary_empty_before_load_witness :
    get_summary_statistics initProcessor = .ok none ∧
    clean_data initProcessor
      = .error (.valueError "No data loaded. Call read_data() first.") ∧
    transform_data initProcessor
      = .error (.valueError "No data loaded. Call read_data() and clean_data() first.") ∧
    aggregate_weekly_output initProcessor
      = .error (.valueError "No data loaded. Complete previous steps first.") :=
  summary_empty_before_load initProcessor rfl

/-- Claim C6: a table missing a required column makes `read_data` fail with
the schema-mismatch error (the line-42 `ValueError` naming the missing
columns, re-raised as an `IOError` by the generic handler of `read_data`),
and no pipeline step completes, so no row processing occurs. -/
theorem schema_mismatch_before_processing (cols : List String) (rows : List RawRow)
    (c : String) (hc : c ∈ requiredColumns) (hn : c ∉ cols) :
    read_data (.table cols rows) initProcessor = .error (.ioError (schemaErrorMsg cols)) ∧
    stepsCompleted (.table cols rows) = [] := by
  have hnall : ¬ ∀ a ∈ requiredColumns, a ∈ cols := fun hall => hn (hall c hc)
  have hrd : read_data (.table cols rows) initProcessor
      = .error (.ioError (schemaErrorMsg cols)) := by
    simp [read_data, hnall]
  exact ⟨hrd, by simp [stepsCompleted, hrd]⟩

/-- Witness for C6: a header with only `Time` lacks `Source_ID`. -/
theorem schema_mismatch_before_processing_witness :
    read_data (.table ["Time"] []) initProcessor
      = .error (.ioError (schemaErrorMsg ["Time"])) ∧
    stepsCompleted (.table ["Time"] []) = [] :=
  schema_mismatch_before_processing ["Time"] [] "Source_ID" (by decide) (by decide)

/-- Claim C7 (amended): a completely empty input file fails at load with
the empty-input error (`EmptyDataError` re-raised as the IOError saying the
file contains no data); a zero-data-row file that still has a header parses
successfully and instead fails later, in `clean_data`, with the
`ZeroDivisionError` from the retention-rate computation. -/
theorem empty_input_behavior :
    read_data CSVInput.emptyFile initProcessor
      = .error (.ioError ("The file " ++ inputFile ++ " contains no data")) ∧
    ∀ cols : List String, (∀ c ∈ requiredColumns, c ∈ cols) →
      runProcessing (.table cols []) = .error .zeroDivisionError := by
  constructor
  · rfl
  · intro cols hcols
    have hempty : (requiredColumns.filter (fun c => !(cols.contains c))).isEmpty = true := by
      simp only [List.isEmpty_iff, List.filter_eq_nil_iff]
      simpa using hcols
    simp only [runProcessing, read_data, initProcessor]
    rw [if_pos hempty]
    rfl

/-- Witness for C7 at the exact required header. -/
theorem empty_input_behavior_witness :
    runProcessing (.table requiredColumns []) = .error .zeroDivisionError :=
  empty_input_behavior.2 requiredColumns (by decide)

/-- Counterexample to C7 as stated: a header-only file has zero data rows,
yet `read_data` succeeds on it (no empty-input error is raised at load);
the run instead dies in `clean_data` with a `ZeroDivisionError`, which is
not the empty-input error of the taxonomy. -/
theorem header_only_no_empty_input_error :
    read_data (.table requiredColumns []) initProcessor
      = .ok ⟨some (.raw []), none, []⟩ ∧
    runProcessing (.table requiredColumns []) = .error .zeroDivisionError :=
  ⟨rfl, rfl⟩

/-- Claim C9: `main` returns 0 exactly when the try body completes and 1 on
every raised error; the handler chain catches every error (the first
matching clause takes it, so each error is handled exactly once). -/
theorem exit_codes (inp : CSVInput) :
    (main inp = 0 ∨ main inp = 1) ∧
    (main inp = 0 ↔ ∃ p, runMain inp = .ok p) ∧
    (∀ e, runMain inp = .error e → main inp = 1) ∧
    (∀ e : PyError, ∃ h, dispatch e = some h ∧ catches h e = true) := by
  refine ⟨?_, ?_, ?_, ?_⟩
  · cases hr : runMain inp with
    | ok p => left; simp [main, hr]
    | error e => right; cases e <;> simp [main, hr]
  · cases hr : runMain inp with
    | ok p => simp [main, hr]
    | error e => cases e <;> simp [main, hr]
  · intro e he; cases e <;> simp [main, he]
  · intro e; cases e <;> exact ⟨_, rfl, rfl⟩

/-- Witness for C9: a missing input file exits with code 1, and the file
not found handler catches it. -/
theorem exit_codes_witness :
    main CSVInput.missingFile = 1 :=
  (exit_codes CSVInput.missingFile).2.2.1 _ rfl

/-! Claim C4: the cleaning step. -/

/-- Reconstruction of the raw row a cleaned row came from. -/
def forgetCRow (c : CRow) : RawRow :=
  ⟨some c.time, c.source_id, some c.power_output, c.efficiency_factor⟩

/-- The two sequential `dropna` passes of `clean_data` followed by the
typed extraction equal the one-pass extraction over the original rows. -/
theorem clean_two_pass (rows : List RawRow) :
    ((rows.filter (fun r => r.time.isSome)).filter
        (fun r => r.power_output.isSome)).filterMap toCRow
      = rows.filterMap toCRow := by
  induction rows with
  | nil => rfl
  | cons r rs ih =>
    obtain ⟨rtime, rsrc, rpow, reff⟩ := r
    cases rtime with
    | none => simpa [toCRow] using ih
    | some t =>
      cases rpow with
      | none => simpa [toCRow] using ih
      | some q => simpa [toCRow] using ih

/-- The rows retained by cleaning are exactly the original rows with a
parseable timestamp and a present power value, in their original order. -/
theorem filterMap_toCRow_forget (rows : List RawRow) :
    (rows.filterMap toCRow).map forgetCRow
      = rows.filter (fun r => r.time.isSome && r.power_output.isSome) := by
  induction rows with
  | nil => rfl
  | cons r rs ih =>
    obtain ⟨rtime, rsrc, rpow, reff⟩ := r
    cases rtime with
    | none => simpa [toCRow] using ih
    | some t =>
      cases rpow with
      | none => simpa [toCRow] using ih
      | some q => simpa [toCRow, forgetCRow] using ih

/-- Claim C4: for every table with the required columns and at least one
data row, load followed by clean succeeds and retains exactly the rows
with a parseable timestamp and non-missing power output, and the retained
count plus the removed count equals the original count.  (A zero-row table
is not a valid input per the spec: it belongs to the empty-input error
case, see C7.) -/
theorem load_clean_retains (cols : List String) (rows : List RawRow)
    (hcols : ∀ c ∈ requiredColumns, c ∈ cols) (hne : rows ≠ []) :
    (read_data (.table cols rows) initProcessor).bind clean_data
      = .ok ⟨some (.cleaned (rows.filterMap toCRow)), none, []⟩ ∧
    (rows.filterMap toCRow).map forgetCRow
      = rows.filter (fun r => r.time.isSome && r.power_output.isSome) ∧
    (rows.filterMap toCRow).length + (rows.length - (rows.filterMap toCRow).length)
      = rows.length := by
  have hempty : (requiredColumns.filter (fun c => !(cols.contains c))).isEmpty = true := by
    simp only [List.isEmpty_iff, List.filter_eq_nil_iff]
    simpa using hcols
  have hlen : ¬ rows.length = 0 := by
    intro h0
    exact hne (List.length_eq_zero.mp h0)
  refine ⟨?_, filterMap_toCRow_forget rows, ?_⟩
  · simp only [read_data, initProcessor]
    rw [if_pos hempty]
    simp only [Except.bind, clean_data]
    rw [if_neg hlen]
    rw [clean_two_pass]
  · have hle := List.length_filterMap_le toCRow rows
    omega

/-- Two raw rows: one fully valid, one with an unparseable timestamp. -/
def rawDemoRows : List RawRow :=
  [⟨some 0, "A", some 1, none⟩, ⟨none, "B", some 2, none⟩]

/-- Witness for C4 at a concrete two-row table with one droppable row. -/
theorem load_clean_retains_witness :
    (read_data (.table requiredColumns rawDemoRows) initProcessor).bind clean_data
      = .ok ⟨some (.cleaned (rawDemoRows.filterMap toCRow)), none, []⟩ ∧
    (rawDemoRows.filterMap toCRow).map forgetCRow
      = rawDemoRows.filter (fun r => r.time.isSome && r.power_output.isSome) ∧
    (rawDemoRows.filterMap toCRow).length
        + (rawDemoRows.length - (rawDemoRows.filterMap toCRow).length)
      = rawDemoRows.length :=
  load_clean_retains requiredColumns rawDemoRows (by decide) (by decide)

/-! Claim C1: correctness of the weekly aggregation. -/

theorem mem_weekRange {lo hi b : Int} (h1 : lo ≤ b) (h2 : b ≤ hi) (h3 : b % 7 = lo % 7) :
    b ∈ weekRange lo hi := by
  unfold weekRange
  refine List.mem_map.mpr ⟨((b - lo) / 7).toNat, List.mem_range.mpr ?_, ?_⟩ <;> omega

theorem mem_groupKeys {key : α → String} {l : List α} {s : String} :
    s ∈ groupKeys key l ↔ s ∈ l.map key := by
  unfold groupKeys
  rw [mem_sort_values, List.mem_dedup]

theorem nodup_groupKeys (key : α → String) (l : List α) : (groupKeys key l).Nodup :=
  ((sort_values_perm _ _).nodup_iff).mpr (l.map key).nodup_dedup

/-- Every entry of the weekly table holds exactly the sum of the power of
the input rows with its source and its week bucket. -/
theorem weeklyDataOf_value {df : List ARow} {e : WEntry} (he : e ∈ weeklyDataOf df) :
    e.power_output = sumPower (df.filter
      (fun r => decide (r.source_id = e.source_id) && decide (weekBucket r.time = e.week))) := by
  simp only [weeklyDataOf] at he
  rcases List.mem_flatMap.mp he with ⟨s, _, hbw⟩
  rcases List.mem_map.mp hbw with ⟨bw, hbwmem, rfl⟩
  simp only [resampleWeekly] at hbwmem
  rcases List.mem_map.mp hbwmem with ⟨w, _, rfl⟩
  show sumPower _ = _
  rw [List.filter_filter]
  unfold sumPower
  refine List.Perm.sum_eq (List.Perm.map _ ?_)
  refine ((sort_values_perm timeLe df).filter _).trans ?_
  rw [List.filter_congr]
  intro x _
  rw [Bool.and_comm]

/-- Every input row is represented in the weekly table: its source and
week bucket occur as an entry. -/
theorem weeklyDataOf_complete {df : List ARow} {r : ARow} (hr : r ∈ df) :
    ∃ e ∈ weeklyDataOf df, e.source_id = r.source_id ∧ e.week = weekBucket r.time := by
  have hrs : r ∈ sort_values timeLe df := mem_sort_values.mpr hr
  have hs : r.source_id ∈ groupKeys ARow.source_id (sort_values timeLe df) :=
    mem_groupKeys.mpr (List.mem_map_of_mem _ hrs)
  have hrg : r ∈ (sort_values timeLe df).filter (fun x => decide (x.source_id = r.source_id)) :=
    List.mem_filter.mpr ⟨hrs, by simp⟩
  have htmem : r.time
      ∈ ((sort_values timeLe df).filter (fun x => decide (x.source_id = r.source_id))).map
          ARow.time :=
    List.mem_map_of_mem _ hrg
  have hmin := minList_le htmem
  have hmax := le_maxList htmem
  have hwr : weekBucket r.time ∈ weekRange
      (weekBucket (minList (((sort_values timeLe df).filter
        (fun x => decide (x.source_id = r.source_id))).map ARow.time)))
      (weekBucket (maxList (((sort_values timeLe df).filter
        (fun x => decide (x.source_id = r.source_id))).map ARow.time))) := by
    refine mem_weekRange ?_ ?_ ?_ <;> (unfold weekBucket; omega)
  refine ⟨⟨r.source_id, weekBucket r.time,
    sumPower (((sort_values timeLe df).filter (fun x => decide (x.source_id = r.source_id))).filter
      (fun x => decide (weekBucket x.time = weekBucket r.time)))⟩, ?_, rfl, rfl⟩
  simp only [weeklyDataOf]
  refine List.mem_flatMap.mpr ⟨r.source_id, hs, ?_⟩
  refine List.mem_map.mpr ⟨(weekBucket r.time, _), ?_, rfl⟩
  simp only [resampleWeekly]
  exact List.mem_map.mpr ⟨weekBucket r.time, hwr, rfl⟩

/-- No (source, week) pair occurs twice in the weekly table. -/
theorem weeklyDataOf_nodup (df : List ARow) :
    ((weeklyDataOf df).map (fun e => (e.source_id, e.week))).Nodup := by
  simp only [weeklyDataOf]
  rw [List.map_flatMap]
  rw [List.nodup_flatMap]
  constructor
  · intro s _
    rw [List.map_map]
    simp only [resampleWeekly, weekRange]
    rw [List.map_map, List.map_map]
    refine List.Nodup.map ?_ (List.nodup_range _)
    intro i j hij
    simp only [Function.comp_apply, Prod.mk.injEq] at hij
    omega
  · refine List.Pairwise.imp ?_ (nodup_groupKeys ARow.source_id (sort_values timeLe df))
    intro s1 s2 hne x hx1 hx2
    rcases List.mem_map.mp hx1 with ⟨e1, he1, hx1e⟩
    rcases List.mem_map.mp he1 with ⟨bw1, _, rfl⟩
    rcases List.mem_map.mp hx2 with ⟨e2, he2, hx2e⟩
    rcases List.mem_map.mp he2 with ⟨bw2, _, rfl⟩
    apply hne
    have h1 : x.1 = s1 := by rw [← hx1e]
    have h2 : x.1 = s2 := by rw [← hx2e]
    rw [← h1, h2]

/-- Claim C1: after `aggregate_weekly_output` on a transformed frame, the
weekly table is `weeklyDataOf`; every weekly entry equals the sum of power
over exactly the cleaned rows of its source whose timestamp falls in its
week bucket; every cleaned row is represented; no (source, week) pair is
counted twice; and the bucket of a timestamp is the next Sunday on or
after it (days congruent to 3 modulo 7 are Sundays), i.e. the calendar
week ending Sunday. -/
theorem weekly_aggregation_correct :
    (∀ (p : Processor) (rows : List TRow), p.dataframe = some (.transformed rows) →
      aggregate_weekly_output p = .ok { p with
        weekly_data := some (weeklyDataOf (rows.map TRow.toARow)),
        top5_sources := top5Of (weeklyDataOf (rows.map TRow.toARow)) }) ∧
    (∀ (df : List ARow) (e : WEntry), e ∈ weeklyDataOf df →
      e.power_output = sumPower (df.filter
        (fun r => decide (r.source_id = e.source_id) && decide (weekBucket r.time = e.week)))) ∧
    (∀ (df : List ARow) (r : ARow), r ∈ df →
      ∃ e ∈ weeklyDataOf df, e.source_id = r.source_id ∧ e.week = weekBucket r.time) ∧
    (∀ df : List ARow, ((weeklyDataOf df).map (fun e => (e.source_id, e.week))).Nodup) ∧
    (∀ t : Int, t ≤ weekBucket t ∧ weekBucket t ≤ t + 6 ∧ weekBucket t % 7 = 3) := by
  refine ⟨?_, ?_, ?_, weeklyDataOf_nodup, ?_⟩
  · intro p rows h
    simp [aggregate_weekly_output, h]
  · intro df e he
    exact weeklyDataOf_value he
  · intro df r hr
    exact weeklyDataOf_complete hr
  · intro t
    unfold weekBucket
    refine ⟨by omega, by omega, by omega⟩

/-- Witness for C1 at a one-row transformed frame. -/
theorem weekly_aggregation_correct_witness :
    aggregate_weekly_output ⟨some (.transformed [⟨0, "A", 10, some 1, .val 10⟩]), none, []⟩
      = .ok ⟨some (.transformed [⟨0, "A", 10, some 1, .val 10⟩]),
          some (weeklyDataOf ([(⟨0, "A", 10, some 1, .val 10⟩ : TRow)].map TRow.toARow)),
          top5Of (weeklyDataOf ([(⟨0, "A", 10, some 1, .val 10⟩ : TRow)].map TRow.toARow))⟩ ∧
    ∃ e ∈ weeklyDataOf [⟨0, "A", 10⟩],
      e.source_id = "A" ∧ e.week = weekBucket 0 :=
  ⟨weekly_aggregation_correct.1 _ [⟨0, "A", 10, some 1, .val 10⟩] rfl,
   weekly_aggregation_correct.2.2.1 [⟨0, "A", 10⟩] ⟨0, "A", 10⟩ (by decide)⟩

/-! Claim C2: the top-5 ranking. -/

theorem strLe_trans3 : ∀ a b c : String,
    strLe a b = true → strLe b c = true → strLe a c = true :=
  fun _ _ _ h1 h2 => strLe_trans h1 h2

theorem sorted_groupKeys (key : α → String) (l : List α) :
    (groupKeys key l).Pairwise (fun a b => strLe a b = true) := by
  unfold groupKeys
  exact @sorted_sort_values String strLe strLe_trans3 strLe_total _

theorem strict_sorted_groupKeys (key : α → String) (l : List α) :
    (groupKeys key l).Pairwise (fun a b => strLt a b = true) :=
  ((sorted_groupKeys key l).and (nodup_groupKeys key l)).imp
    (fun hab => strLt_of_strLe_of_ne hab.1 hab.2)

theorem totalBySource_pairwise (w : List WEntry) :
    (totalBySource w).Pairwise (fun a b => strLt a.1 b.1 = true) := by
  unfold totalBySource
  exact List.pairwise_map.mpr ((strict_sorted_groupKeys WEntry.source_id w).imp (fun h => h))

/-- Inserting an element whose key is strictly below every key in a list
that is sorted by value with value-ties in ascending key order preserves
that shape. -/
theorem pairwiseLex_orderedInsert {x : String × Rat} :
    ∀ {s : List (String × Rat)},
      s.Pairwise (fun a b => a.2 < b.2 ∨ (a.2 = b.2 ∧ strLt a.1 b.1 = true)) →
      (∀ b ∈ s, strLt x.1 b.1 = true) →
      (orderedInsert valueLe x s).Pairwise
        (fun a b => a.2 < b.2 ∨ (a.2 = b.2 ∧ strLt a.1 b.1 = true)) := by
  intro s
  induction s with
  | nil => intro _ _; simp [orderedInsert]
  | cons b bs ih =>
    intro hp hk
    by_cases h : valueLe x b = true
    · rw [orderedInsert, if_pos h]
      have hxb : x.2 ≤ b.2 := by simpa [valueLe] using h
      refine List.Pairwise.cons ?_ hp
      intro y hy
      rcases List.mem_cons.mp hy with rfl | hy
      · rcases lt_or_eq_of_le hxb with hlt | heq
        · exact Or.inl hlt
        · exact Or.inr ⟨heq, hk y (List.mem_cons_self y bs)⟩
      · have hby : b.2 ≤ y.2 := by
          rcases List.rel_of_pairwise_cons hp hy with h1 | ⟨h1, _⟩
          · exact le_of_lt h1
          · exact le_of_eq h1
        rcases lt_or_eq_of_le (le_trans hxb hby) with hlt | heq
        · exact Or.inl hlt
        · exact Or.inr ⟨heq, hk y (List.mem_cons_of_mem b hy)⟩
    · rw [orderedInsert, if_neg h]
      have hbx : b.2 < x.2 := by
        have hnle : ¬ (x.2 ≤ b.2) := by simpa [valueLe] using h
        exact lt_of_not_le hnle
      refine List.Pairwise.cons ?_ (ih hp.tail (fun c hc => hk c (List.mem_cons_of_mem b hc)))
      intro y hy
      rcases mem_orderedInsert.mp hy with rfl | hy
      · exact Or.inl hbx
      · exact List.rel_of_pairwise_cons hp hy

/-- Stably sorting by value a list whose keys are strictly ascending gives
a list sorted by value with value-ties in ascending key order. -/
theorem pairwiseLex_sort_values :
    ∀ {l : List (String × Rat)}, l.Pairwise (fun a b => strLt a.1 b.1 = true) →
      (sort_values valueLe l).Pairwise
        (fun a b => a.2 < b.2 ∨ (a.2 = b.2 ∧ strLt a.1 b.1 = true)) := by
  intro l
  induction l with
  | nil => intro _; exact List.Pairwise.nil
  | cons x xs ih =>
    intro hp
    refine pairwiseLex_orderedInsert (ih hp.tail) ?_
    intro b hb
    exact List.rel_of_pairwise_cons hp (mem_sort_values.mp hb)

theorem fst_totalBySource_nodup (w : List WEntry) :
    ((totalBySource w).map Prod.fst).Nodup := by
  unfold totalBySource
  rw [List.map_map]
  have hid : (Prod.fst ∘ fun s : String =>
      (s, ((w.filter (fun e => decide (e.source_id = s))).map WEntry.power_output).sum)) = id :=
    rfl
  rw [hid, List.map_id]
  exact nodup_groupKeys WEntry.source_id w

/-- Claim C2 (amended): the top-5 list produced by `aggregate_weekly_output`
is the first at-most-five sources of a ranking of the distinct sources by
strictly descending total power output, with ties broken by descending
source id (the reverse of the sorted groupby key order) — not by original
encounter order; fewer than five distinct sources yield a shorter list, and
the result is a deterministic function of the table. -/
theorem top5_ranking_properties :
    (∀ (p : Processor) (rows : List TRow), p.dataframe = some (.transformed rows) →
      aggregate_weekly_output p = .ok { p with
        weekly_data := some (weeklyDataOf (rows.map TRow.toARow)),
        top5_sources := top5Of (weeklyDataOf (rows.map TRow.toARow)) }) ∧
    (∀ w : List WEntry,
      (top5Of w).length = min 5 (groupKeys WEntry.source_id w).length ∧
      (top5Of w).Nodup ∧
      (∀ s ∈ top5Of w, s ∈ groupKeys WEntry.source_id w) ∧
      (sortDescByValue (totalBySource w)).Pairwise
        (fun a b => b.2 < a.2 ∨ (b.2 = a.2 ∧ strLt b.1 a.1 = true)) ∧
      (∀ q ∈ sortDescByValue (totalBySource w),
        q.2 = ((w.filter (fun e => decide (e.source_id = q.1))).map WEntry.power_output).sum) ∧
      top5Of w = ((sortDescByValue (totalBySource w)).take 5).map Prod.fst) := by
  constructor
  · intro p rows h
    simp [aggregate_weekly_output, h]
  · intro w
    refine ⟨?_, ?_, ?_, ?_, ?_, rfl⟩
    · unfold top5Of sortDescByValue
      rw [List.length_map, List.length_take, List.length_reverse, length_sort_values]
      unfold totalBySource
      rw [List.length_map]
    · unfold top5Of sortDescByValue
      rw [List.map_take, List.map_reverse]
      refine List.Nodup.sublist (List.take_sublist _ _) ?_
      rw [List.nodup_reverse]
      exact ((List.Perm.map Prod.fst (sort_values_perm valueLe (totalBySource w))).nodup_iff).mpr
        (fst_totalBySource_nodup w)
    · intro s hs
      unfold top5Of sortDescByValue at hs
      rcases List.mem_map.mp hs with ⟨q, hq, rfl⟩
      have hq2 : q ∈ (sort_values valueLe (totalBySource w)).reverse :=
        (List.take_sublist _ _).subset hq
      have hq3 : q ∈ totalBySource w :=
        mem_sort_values.mp (List.mem_reverse.mp hq2)
      unfold totalBySource at hq3
      rcases List.mem_map.mp hq3 with ⟨s0, hs0, rfl⟩
      exact hs0
    · unfold sortDescByValue
      rw [List.pairwise_reverse]
      exact pairwiseLex_sort_values (totalBySource_pairwise w)
    · intro q hq
      unfold sortDescByValue at hq
      have hq3 : q ∈ totalBySource w :=
        mem_sort_values.mp (List.mem_reverse.mp hq)
      unfold totalBySource at hq3
      rcases List.mem_map.mp hq3 with ⟨s0, _, rfl⟩
      rfl

/-- Witness for C2: a one-row transformed frame and a one-entry weekly
table. -/
theorem top5_ranking_properties_witness :
    aggregate_weekly_output ⟨some (.transformed [⟨0, "B", 7, none, .nan⟩]), none, []⟩
      = .ok ⟨some (.transformed [⟨0, "B", 7, none, .nan⟩]),
          some (weeklyDataOf ([(⟨0, "B", 7, none, .nan⟩ : TRow)].map TRow.toARow)),
          top5Of (weeklyDataOf ([(⟨0, "B", 7, none, .nan⟩ : TRow)].map TRow.toARow))⟩ ∧
    (top5Of [⟨"B", 3, 7⟩]).length = min 5 (groupKeys WEntry.source_id [⟨"B", 3, 7⟩]).length :=
  ⟨top5_ranking_properties.1 _ [⟨0, "B", 7, none, .nan⟩] rfl,
   (top5_ranking_properties.2 [⟨"B", 3, 7⟩]).1⟩

/-- Two sources, encountered as A then B, with equal totals. -/
def tieRows : List ARow := [⟨0, "A", 10⟩, ⟨0, "B", 10⟩]

/-- Counterexample to C2 as stated: on equal totals the code ranks the
later-encountered source `B` first (reverse of the sorted groupby key
order), while the claimed stable encounter-order tie-break would rank `A`
first. -/
theorem top5_tie_not_encounter_order :
    top5Of (weeklyDataOf tieRows) = ["B", "A"] ∧
    top5SpecStable tieRows = ["A", "B"] ∧
    top5Of (weeklyDataOf tieRows) ≠ top5SpecStable tieRows := by
  have hw : weeklyDataOf tieRows = [⟨"A", 3, 10⟩, ⟨"B", 3, 10⟩] := by
    simp +decide [tieRows, weeklyDataOf, groupKeys, sort_values, orderedInsert, timeLe,
      strLe, lexLe, resampleWeekly, weekRange, weekBucket, minList, maxList, sumPower,
      List.range_succ, Function.comp, List.dedup]
  have h1 : top5Of (weeklyDataOf tieRows) = ["B", "A"] := by
    rw [hw]
    simp +decide [top5Of, totalBySource, groupKeys, sort_values, orderedInsert, strLe,
      lexLe, sortDescByValue, valueLe, List.dedup]
  have h2 : top5SpecStable tieRows = ["A", "B"] := by
    simp +decide [tieRows, top5SpecStable, sort_values, orderedInsert, sumPower]
  refine ⟨h1, h2, ?_⟩
  rw [h1, h2]
  decide

/-! Claim C5: the two-row end-to-end scenario. -/

/-- Two readings of one source in consecutive week buckets aggregate to
exactly two weekly entries. -/
theorem weeklyDataOf_two_row_consecutive (s : String) (t1 t2 : Int) (p1 p2 : Rat)
    (hw : weekBucket t2 = weekBucket t1 + 7) :
    weeklyDataOf [⟨t1, s, p1⟩, ⟨t2, s, p2⟩]
      = [⟨s, weekBucket t1, p1⟩, ⟨s, weekBucket t1 + 7, p2⟩] := by
  have ht2 : t1 ≤ t2 := by unfold weekBucket at hw; omega
  have hne : (decide (weekBucket t2 = weekBucket t1)) = false :=
    decide_eq_false (by omega)
  have hne2 : (decide (weekBucket t1 = weekBucket t2)) = false :=
    decide_eq_false (by omega)
  have hmin : minList [t1, t2] = t1 := by simp [minList, ht2]
  have hmax : maxList [t1, t2] = t2 := by simp [maxList, ht2]
  have hrange : weekRange (weekBucket t1) (weekBucket t2)
      = [weekBucket t1, weekBucket t1 + 7] := by
    unfold weekRange
    rw [hw]
    have h7 : ((weekBucket t1 + 7 - weekBucket t1) / 7).toNat + 1 = 2 := by omega
    rw [h7]
    simp [List.range_succ]
  have heq : (decide (weekBucket t2 = weekBucket t1 + 7)) = true := decide_eq_true hw
  simp [weeklyDataOf, groupKeys, sort_values, orderedInsert, timeLe, ht2, List.dedup,
    resampleWeekly, hmin, hmax, hrange, sumPower, hne, hne2, heq]

/-- A two-entry weekly table of a single source ranks exactly that
source. -/
theorem top5Of_single_source_pair (s : String) (b1 : Int) (p1 p2 : Rat) :
    top5Of [⟨s, b1, p1⟩, ⟨s, b1 + 7, p2⟩] = [s] := by
  simp [top5Of, totalBySource, groupKeys, sort_values, orderedInsert, List.dedup,
    sortDescByValue, valueLe]

/-- Claim C5 (amended): a two-row table of one source whose readings fall
in two consecutive week buckets produces exactly two weekly entries, each
holding that single-week reading, and the top-5 list is exactly that one
source.  (When the two weeks are not consecutive, `resample('W')` inserts
the intermediate empty weeks as zero entries — see the counterexample.) -/
theorem two_row_consecutive_weeks (s : String) (t1 t2 : Int) (p1 p2 : Rat)
    (e1 e2 : Option Rat) (hw : weekBucket t2 = weekBucket t1 + 7) :
    runProcessing (.table requiredColumns
        [⟨some t1, s, some p1, e1⟩, ⟨some t2, s, some p2, e2⟩])
      = .ok ⟨some (.transformed
            [⟨t1, s, p1, e1, squashInf (floatDivOpt (some p1) e1)⟩,
             ⟨t2, s, p2, e2, squashInf (floatDivOpt (some p2) e2)⟩]),
          some [⟨s, weekBucket t1, p1⟩, ⟨s, weekBucket t1 + 7, p2⟩],
          [s]⟩ := by
  have hagg := weeklyDataOf_two_row_consecutive s t1 t2 p1 p2 hw
  have htop := top5Of_single_source_pair s (weekBucket t1) p1 p2
  simp [runProcessing, read_data, clean_data, transform_data, aggregate_weekly_output,
    initProcessor, toCRow, addRatioC, TRow.toARow, hagg, htop, Except.bind]

/-- Witness for C5: readings on day 3 and day 10 (consecutive Sundays). -/
theorem two_row_consecutive_weeks_witness :
    runProcessing (.table requiredColumns
        [⟨some 3, "A", some 10, none⟩, ⟨some 10, "A", some 20, none⟩])
      = .ok ⟨some (.transformed
            [⟨3, "A", 10, none, squashInf (floatDivOpt (some 10) none)⟩,
             ⟨10, "A", 20, none, squashInf (floatDivOpt (some 20) none)⟩]),
          some [⟨"A", weekBucket 3, 10⟩, ⟨"A", weekBucket 3 + 7, 20⟩],
          ["A"]⟩ :=
  two_row_consecutive_weeks "A" 3 10 10 20 none none (by decide)

/-- Counterexample to C5 as stated: two readings of one source in two
different weeks three buckets apart yield four weekly entries (the two
intermediate empty weeks are zero-filled by `resample('W')`), not exactly
two. -/
theorem two_different_weeks_four_buckets :
    runProcessing (.table requiredColumns
        [⟨some 3, "A", some 10, none⟩, ⟨some 24, "A", some 20, none⟩])
      = .ok ⟨some (.transformed
            [⟨3, "A", 10, none, .nan⟩, ⟨24, "A", 20, none, .nan⟩]),
          some [⟨"A", 3, 10⟩, ⟨"A", 10, 0⟩, ⟨"A", 17, 0⟩, ⟨"A", 24, 20⟩],
          ["A"]⟩ ∧
    weekBucket 3 ≠ weekBucket 24 ∧
    ([(⟨"A", 3, 10⟩ : WEntry), ⟨"A", 10, 0⟩, ⟨"A", 17, 0⟩, ⟨"A", 24, 20⟩]).length ≠ 2 := by
  refine ⟨?_, by decide, by decide⟩
  simp +decide [runProcessing, read_data, clean_data, transform_data, aggregate_weekly_output,
    initProcessor, toCRow, addRatioC, TRow.toARow, Except.bind, floatDivOpt, squashInf,
    weeklyDataOf, groupKeys, sort_values, orderedInsert, timeLe, strLe, lexLe, List.dedup,
    resampleWeekly, weekRange, weekBucket, minList, maxList, sumPower, List.range_succ,
    Function.comp, top5Of, totalBySource, sortDescByValue, valueLe]

end GridOptimizer
